import Mathlib

/-!
Verification of the budget-tracker backend (Express/Mongoose, TypeScript).

The development shallowly embeds the data model (`User`, `Entry`,
`Notification` Mongoose documents), the request handlers of
`src/controllers/entryController.ts` and
`src/controllers/notificationController.ts`, the boot-time notification wipe
of `src/server.ts`, and the `protect` auth middleware.

Modelling conventions:
* Document ids are natural numbers; a `DB` record holds the three
  collections as lists plus a fresh-id counter.
* JavaScript numbers used for prices and budget limits are modelled as
  rationals; `Number(price)` producing `NaN` is modelled by an
  `Option` price in the request body (`none` = not a number).
* Calendar dates (stored as `YYYY-MM-DD` strings in Mongo and compared
  lexicographically, which for that format agrees with chronological
  order) are modelled as `(year, month, day)` triples with JavaScript
  `Date` month normalisation, `getMonth` being 0-based. The server is
  assumed to run in UTC, so `toISOString` round-trips the triple.
* Handlers are pure functions `DB → ... → Except ErrResp α × DB`
  returning the HTTP outcome and the successor database state.
* `jwt.verify` is an external library call; the middleware is
  parameterised by an arbitrary verification function
  `String → Option UserId` (`none` = the library throws).
-/

namespace BudgetApp

abbrev UserId := Nat
abbrev EntryId := Nat
abbrev NotifId := Nat

/-- A calendar date, with `month` 0-based as in JavaScript `getMonth`. -/
structure YMD where
  year : Int
  month : Int
  day : Int
deriving Repr, DecidableEq

/-- JavaScript `Date` month normalisation: month index is reduced mod 12
with the years carried. `Int` division/modulo by a positive constant is
floor division, matching JavaScript rollover for any sign. -/
def normYM (y m : Int) : Int × Int := (y + m / 12, m % 12)

/-- True in exactly the leap years of the proleptic Gregorian calendar. -/
def isLeapYear (y : Int) : Bool := (y % 4 == 0 && y % 100 != 0) || y % 400 == 0

/-- Number of days of month `m` (0-based) of year `y`. -/
def daysInMonth (y m : Int) : Int :=
  if m = 1 then (if isLeapYear y then 29 else 28)
  else if m = 3 ∨ m = 5 ∨ m = 8 ∨ m = 10 then 30
  else 31

/-- `new Date(y, m, d)` for the uses in the controller: `d = 0` denotes the
last day of the month preceding `m` (how the code obtains month ends), and
`1 ≤ d ≤ daysInMonth` is kept as given after month normalisation. -/
def mkDate (y m d : Int) : YMD :=
  if d = 0 then
    let p := normYM y (m - 1)
    ⟨p.1, p.2, daysInMonth p.1 p.2⟩
  else
    let p := normYM y m
    ⟨p.1, p.2, d⟩

/-- `current.setMonth(current.getMonth() + 1)`; the day (always 1 at the
call sites) never overflows the new month. -/
def YMD.addMonth (dt : YMD) : YMD :=
  let p := normYM dt.year (dt.month + 1)
  ⟨p.1, p.2, dt.day⟩

/-- Chronological (lexicographic) order on dates; for valid dates this is
what the string comparisons on `YYYY-MM-DD` keys compute. -/
def YMD.le (a b : YMD) : Bool :=
  decide (a.year < b.year ∨ (a.year = b.year ∧
    (a.month < b.month ∨ (a.month = b.month ∧ a.day ≤ b.day))))

def YMD.lt (a b : YMD) : Bool :=
  decide (a.year < b.year ∨ (a.year = b.year ∧
    (a.month < b.month ∨ (a.month = b.month ∧ a.day < b.day))))

/-- `setDate(getDate() + 1)` with month/year rollover. -/
def YMD.nextDay (dt : YMD) : YMD :=
  if dt.day + 1 ≤ daysInMonth dt.year dt.month then ⟨dt.year, dt.month, dt.day + 1⟩
  else
    let p := normYM dt.year (dt.month + 1)
    ⟨p.1, p.2, 1⟩

/-- A date whose components are in range; Mongo stores dates the frontend
produced, all of this shape. -/
def validYMD (d : YMD) : Prop :=
  0 ≤ d.month ∧ d.month < 12 ∧ 1 ≤ d.day ∧ d.day ≤ daysInMonth d.year d.month

instance (d : YMD) : Decidable (validYMD d) := by
  unfold validYMD; infer_instance

/-- `toLocaleString(default, month short)` for the en default locale. -/
def monthShortName (m : Int) : String :=
  if m = 0 then "Jan" else if m = 1 then "Feb" else if m = 2 then "Mar"
  else if m = 3 then "Apr" else if m = 4 then "May" else if m = 5 then "Jun"
  else if m = 6 then "Jul" else if m = 7 then "Aug" else if m = 8 then "Sep"
  else if m = 9 then "Oct" else if m = 10 then "Nov" else "Dec"

/-- The fields of the `User` model that the verified handlers read. -/
structure User where
  id : UserId
  firstName : String
  lastName : String
  budgetLimit : ℚ
  role : String
deriving Repr, DecidableEq

/-- The `Entry` model: one expense document. -/
structure Entry where
  id : EntryId
  userId : UserId
  title : String
  price : ℚ
  date : YMD
  user : String
deriving Repr, DecidableEq

inductive NotifType where
  | add
  | edit
  | delete
deriving Repr, DecidableEq

/-- The `Notification` model. -/
structure Notification where
  id : NotifId
  userId : UserId
  message : String
  type : NotifType
  isRead : Bool
deriving Repr, DecidableEq

/-- The Mongo database: the three collections, plus a counter supplying
fresh `_id`s. -/
structure DB where
  users : List User
  entries : List Entry
  notifications : List Notification
  nextId : Nat
deriving Repr

/-- An error response: HTTP status and the `message` field of the body. -/
structure ErrResp where
  status : Nat
  message : String
deriving Repr, DecidableEq

/-- `User.findById` -/
def findUser (db : DB) (uid : UserId) : Option User :=
  db.users.find? (fun u => u.id == uid)

/-- The request body of create/update entry. `price = none` models a body
whose `Number(price)` is `NaN`. -/
structure EntryBody where
  title : String
  price : Option ℚ
  date : YMD
deriving Repr

/-- The response shape the controller sends for a single entry
(`_id` stringified, `userId` dropped). -/
structure EntryView where
  id : EntryId
  title : String
  price : ℚ
  date : YMD
  user : String
deriving Repr, DecidableEq

def entryView (e : Entry) : EntryView :=
  { id := e.id, title := e.title, price := e.price, date := e.date, user := e.user }

/-- Sum of the prices of a list of entries; the `$group`/`$sum` aggregate
returns no row for an empty match and the controller then defaults to 0,
which coincides with the empty sum. -/
def sumPrices (l : List Entry) : ℚ := (l.map (fun e => e.price)).sum

/-- `firstName.toLowerCase() + "-" + lastName.toLowerCase()` -/
def userSlug (u : User) : String := u.firstName.toLower ++ "-" ++ u.lastName.toLower

/-- `addEntry` of `entryController.ts`: price validation, user lookup,
budget check against the sum of all of the user entries, then entry and
notification creation. -/
def addEntry (db : DB) (uid : UserId) (body : EntryBody) : Except ErrResp EntryView × DB :=
  match body.price with
  | none => (.error ⟨400, "Invalid price value"⟩, db)
  | some numericPrice =>
    if numericPrice < 0 then (.error ⟨400, "Invalid price value"⟩, db)
    else
      match findUser db uid with
      | none => (.error ⟨404, "User not found"⟩, db)
      | some user =>
        let currentTotal := sumPrices (db.entries.filter (fun e => e.userId == user.id))
        if currentTotal + numericPrice > user.budgetLimit then
          (.error ⟨400, "Budget limit exceeded"⟩, db)
        else
          let entry : Entry :=
            { id := db.nextId, userId := uid, title := body.title,
              price := numericPrice, date := body.date, user := userSlug user }
          let notif : Notification :=
            { id := db.nextId + 1, userId := uid,
              message := body.title ++ " added successfully.",
              type := .add, isRead := false }
          (.ok (entryView entry),
            { db with entries := db.entries ++ [entry],
                      notifications := db.notifications ++ [notif],
                      nextId := db.nextId + 2 })

/-- Replace the first element satisfying `p` (as `findOneAndUpdate` and
`entry.save()` touch a single document). -/
def updateFirst (p : α → Bool) (f : α → α) : List α → List α
  | [] => []
  | x :: xs => if p x then f x :: xs else x :: updateFirst p f xs

/-- `updateEntry`: price validation, ownership-checked lookup, budget check
against the sum of the other entries of the user, in-place update, and an
edit notification. -/
def updateEntry (db : DB) (uid : UserId) (eid : EntryId) (body : EntryBody) :
    Except ErrResp EntryView × DB :=
  match body.price with
  | none => (.error ⟨400, "Invalid price value"⟩, db)
  | some numericPrice =>
    if numericPrice < 0 then (.error ⟨400, "Invalid price value"⟩, db)
    else
      match db.entries.find? (fun e => e.id == eid && e.userId == uid) with
      | none => (.error ⟨404, "Entry not found"⟩, db)
      | some entry =>
        match findUser db uid with
        | none => (.error ⟨404, "User not found"⟩, db)
        | some user =>
          let currentTotal := sumPrices (db.entries.filter
            (fun e => e.userId == user.id && !(e.id == entry.id)))
          if currentTotal + numericPrice > user.budgetLimit then
            (.error ⟨400, "Budget limit exceeded"⟩, db)
          else
            let entry2 : Entry :=
              { entry with title := body.title, price := numericPrice,
                           date := body.date, user := userSlug user }
            let notif : Notification :=
              { id := db.nextId, userId := uid,
                message := body.title ++ " updated successfully.",
                type := .edit, isRead := false }
            (.ok (entryView entry2),
              { db with
                  entries := updateFirst (fun e => e.id == eid && e.userId == uid)
                    (fun _ => entry2) db.entries,
                  notifications := db.notifications ++ [notif],
                  nextId := db.nextId + 1 })

/-- Remove the first element satisfying `p` (`findByIdAndDelete`). -/
def eraseFirst (p : α → Bool) : List α → List α
  | [] => []
  | x :: xs => if p x then xs else x :: eraseFirst p xs

/-- `deleteEntry`: ownership-checked lookup, a delete notification created
before the document is removed by id. -/
def deleteEntry (db : DB) (uid : UserId) (eid : EntryId) : Except ErrResp String × DB :=
  match db.entries.find? (fun e => e.id == eid && e.userId == uid) with
  | none => (.error ⟨404, "Entry not found"⟩, db)
  | some entry =>
    let notif : Notification :=
      { id := db.nextId, userId := uid,
        message := entry.title ++ " removed successfully.",
        type := .delete, isRead := false }
    (.ok "Entry deleted successfully",
      { db with
          entries := eraseFirst (fun e => e.id == eid) db.entries,
          notifications := db.notifications ++ [notif],
          nextId := db.nextId + 1 })

/-- `getUserNotifications` sorts by `createdAt` descending and limits to 50;
the list endpoint is read-only. Insertion order stands in for `createdAt`
order, so the newest-first view is the reverse of the stored list. -/
def getUserNotifications (db : DB) (uid : UserId) : List Notification :=
  ((db.notifications.filter (fun n => n.userId == uid)).reverse).take 50

/-- `markNotificationAsRead`: `findOneAndUpdate` on `_id` and `userId`. -/
def markNotificationAsRead (db : DB) (uid : UserId) (nid : NotifId) :
    Except ErrResp Notification × DB :=
  match db.notifications.find? (fun n => n.id == nid && n.userId == uid) with
  | none => (.error ⟨404, "Notification not found"⟩, db)
  | some n =>
    (.ok { n with isRead := true },
      { db with notifications := (updateFirst (fun m => m.id == nid && m.userId == uid)
          (fun m => { m with isRead := true }) db.notifications) })

/-- `markAllNotificationsAsRead`: `updateMany` on the unread notifications
of the user; returns the modified count. -/
def markAllNotificationsAsRead (db : DB) (uid : UserId) : Nat × DB :=
  let modified := (db.notifications.filter (fun n => n.userId == uid && n.isRead == false)).length
  (modified,
    { db with notifications := (db.notifications.map
        (fun n => if n.userId == uid && n.isRead == false then { n with isRead := true } else n)) })

/-- `getUnreadNotificationCount`: `countDocuments` on unread notifications
of the user. -/
def getUnreadNotificationCount (db : DB) (uid : UserId) : Nat :=
  (db.notifications.filter (fun n => n.userId == uid && n.isRead == false)).length

/-- Query parameters of the list endpoint after the `parseInt`/default
step of the controller. -/
structure ListParams where
  page : Nat
  limit : Nat
  search : String
  dateFilter : Option YMD
  sortBy : String

/-- Character-list prefix test (auxiliary for the title search). -/
def isPrefixList (p l : List Char) : Bool :=
  match p, l with
  | [], _ => true
  | _ :: _, [] => false
  | a :: as2, b :: bs => a == b && isPrefixList as2 bs

/-- Character-list containment test (auxiliary for the title search). -/
def isSubListOf (n h : List Char) : Bool :=
  match h with
  | [] => n.isEmpty
  | _ :: t => isPrefixList n h || isSubListOf n t

/-- Case-insensitive containment: the `$regex`/`$options: i` title filter
for a plain-text (metacharacter-free) search string. -/
def titleMatches (search title : String) : Bool :=
  isSubListOf search.toLower.toList title.toLower.toList

/-- The Mongo query object built by `getUserEntries`: owner, optional
title search, optional day range `[filterDate, filterDate + 1)`. -/
def entryMatches (uid : UserId) (ps : ListParams) (e : Entry) : Bool :=
  e.userId == uid
  && (ps.search == "" || titleMatches ps.search e.title)
  && (match ps.dateFilter with
      | none => true
      | some d => YMD.le d e.date && YMD.lt e.date d.nextDay)

/-- The `.sort(...)` clause keyed by the `sortBy` parameter. -/
def sortEntries (sortBy : String) (l : List Entry) : List Entry :=
  if sortBy = "price-high-low" then l.mergeSort (fun a b => decide (b.price ≤ a.price))
  else if sortBy = "price-low-high" then l.mergeSort (fun a b => decide (a.price ≤ b.price))
  else if sortBy = "date-new-old" then l.mergeSort (fun a b => YMD.le b.date a.date)
  else if sortBy = "date-old-new" then l.mergeSort (fun a b => YMD.le a.date b.date)
  else l

structure Pagination where
  currentPage : Nat
  totalPages : Nat
  totalEntries : Nat
  hasNextPage : Bool
  hasPrevPage : Bool
  limit : Nat
deriving Repr, DecidableEq

structure EntriesPage where
  entries : List EntryView
  pagination : Pagination
deriving Repr

/-- `getUserEntries`: filter, sort, paginate, transform; read-only. -/
def getUserEntries (db : DB) (uid : UserId) (ps : ListParams) : EntriesPage :=
  let matching := db.entries.filter (entryMatches uid ps)
  let totalEntries := matching.length
  let skip := (ps.page - 1) * ps.limit
  let pageItems := ((sortEntries ps.sortBy matching).drop skip).take ps.limit
  let totalPages := (totalEntries + ps.limit - 1) / ps.limit
  { entries := pageItems.map entryView,
    pagination :=
      { currentPage := ps.page, totalPages := totalPages, totalEntries := totalEntries,
        hasNextPage := decide (ps.page < totalPages), hasPrevPage := decide (1 < ps.page),
        limit := ps.limit } }

/-- Add `v` at key `k`, inserting the key if absent: the
`if (!map.has(key)) map.set(key, 0); map.get(key) += v` pattern of the
grouping loops. -/
def bumpKey [DecidableEq κ] (k : κ) (v : ℚ) : List (κ × ℚ) → List (κ × ℚ)
  | [] => [(k, v)]
  | (k2, v2) :: rest =>
      if k2 = k then (k2, v2 + v) :: rest else (k2, v2) :: bumpKey k v rest

/-- `map.get(key)` with the absent key read as 0. -/
def lookupQ [DecidableEq κ] (m : List (κ × ℚ)) (k : κ) : ℚ :=
  match m.find? (fun p => p.1 = k) with
  | some p => p.2
  | none => 0

/-- The month-grouping loop: accumulate each entry price under its
`(getFullYear, getMonth)` key. -/
def groupMonths (entries : List Entry) : List ((Int × Int) × ℚ) :=
  entries.foldl (fun m e => bumpKey (e.date.year, e.date.month) e.price m) []

/-- The day-grouping loop of the last-month branch: accumulate under the
ISO day key, i.e. the date triple. -/
def groupDays (entries : List Entry) : List (YMD × ℚ) :=
  entries.foldl (fun m e => bumpKey e.date e.price m) []

/-- One element of the `months` array of the analysis response. -/
structure MonthBucket where
  year : Int
  month : Int
  monthName : String
  totalExpenses : ℚ
  budgetLimit : ℚ
  exceeded : Bool
  remaining : ℚ
deriving Repr, DecidableEq

/-- One element of the `days` array of the analysis response. -/
structure DayBucket where
  year : Int
  month : Int
  day : Int
  date : YMD
  totalExpenses : ℚ
  budgetLimit : ℚ
  exceeded : Bool
  remaining : ℚ
deriving Repr, DecidableEq

/-- The bucket the month loop pushes for the month `(y, m)`. -/
def mkMonthBucket (y m : Int) (mexp : List ((Int × Int) × ℚ)) (limit : ℚ) : MonthBucket :=
  let t := lookupQ mexp (y, m)
  { year := y, month := m + 1, monthName := monthShortName m,
    totalExpenses := t, budgetLimit := limit,
    exceeded := decide (t > limit), remaining := limit - t }

/-- The `while (current <= endDate)` month loop, with explicit fuel (the
callers pass exactly the month count of the range, so the guard and not
the fuel ends the loop). -/
def monthLoop (fuel : Nat) (cur endD : YMD) (mexp : List ((Int × Int) × ℚ)) (limit : ℚ) :
    List MonthBucket :=
  match fuel with
  | 0 => []
  | f + 1 =>
    if YMD.le cur endD then
      mkMonthBucket cur.year cur.month mexp limit :: monthLoop f cur.addMonth endD mexp limit
    else []

/-- Month count of the range `[cur, endD]`, the iteration bound of the
while loop. -/
def monthsFuel (cur endD : YMD) : Nat :=
  (endD.year * 12 + endD.month - (cur.year * 12 + cur.month) + 1).toNat

/-- The `for (day = 1; day <= daysInMonth; day++)` loop of the last-month
branch. -/
def dayLoop (daysCount : Nat) (sy sm : Int) (dexp : List (YMD × ℚ)) (limit : ℚ) :
    List DayBucket :=
  (List.range daysCount).map (fun i : Nat =>
    let day : Int := (i : Int) + 1
    let dateObj := mkDate sy sm day
    let t := lookupQ dexp dateObj
    { year := dateObj.year, month := dateObj.month + 1, day := day, date := dateObj,
      totalExpenses := t, budgetLimit := limit,
      exceeded := decide (t > limit), remaining := limit - t })

/-- The `analysis` object of the response. -/
structure Analysis where
  range : String
  months : List MonthBucket
  days : Option (List DayBucket)
  totalExpenses : ℚ
  totalBudget : ℚ
  overallExceeded : Bool
deriving Repr, DecidableEq

/-- `getBudgetAnalysis`: range selection from the current date, owner and
range filtered entry query, month grouping, the month loop, the daily
breakdown for last-month, and the aggregate fields. Read-only: the
database is returned unchanged. -/
def getBudgetAnalysis (db : DB) (uid : UserId) (range : String) (today : YMD) :
    Except ErrResp Analysis × DB :=
  match findUser db uid with
  | none => (.error ⟨404, "User not found"⟩, db)
  | some user =>
    let currentYear := today.year
    let currentMonth := today.month
    let startDate :=
      if range = "last-month" then
        let prevMonth := if currentMonth = 0 then 11 else currentMonth - 1
        let prevMonthYear := if currentMonth = 0 then currentYear - 1 else currentYear
        mkDate prevMonthYear prevMonth 1
      else if range = "last-6-months" then mkDate currentYear (currentMonth - 5) 1
      else mkDate currentYear (currentMonth - 11) 1
    let endDate :=
      if range = "last-month" then
        let prevMonth := if currentMonth = 0 then 11 else currentMonth - 1
        let prevMonthYear := if currentMonth = 0 then currentYear - 1 else currentYear
        mkDate prevMonthYear (prevMonth + 1) 0
      else mkDate currentYear (currentMonth + 1) 0
    let allEntries := (db.entries.filter
        (fun e => e.userId == user.id && YMD.le startDate e.date && YMD.le e.date endDate)
      ).mergeSort (fun a b => YMD.le a.date b.date)
    let monthlyExpenses := groupMonths allEntries
    let months := monthLoop (monthsFuel startDate endDate) startDate endDate
      monthlyExpenses user.budgetLimit
    let days :=
      if range = "last-month" then
        some (dayLoop (endDate.day.toNat) startDate.year startDate.month
          (groupDays allEntries) user.budgetLimit)
      else none
    (.ok
      { range := range, months := months, days := days,
        totalExpenses := (months.map (fun b => b.totalExpenses)).sum,
        totalBudget := (months.length : ℚ) * user.budgetLimit,
        overallExceeded := months.any (fun b => b.exceeded) },
      db)

/-- The boot callback of `server.ts`: once Mongo connects,
`Notification.deleteMany(all)` wipes the notification collection and
touches nothing else. -/
def serverBoot (db : DB) : DB :=
  { db with notifications := [] }

/-- The budget check of `addEntry` in isolation: aggregate read plus
comparison, with no write. -/
def budgetCheckPasses (db : DB) (user : User) (p : ℚ) : Bool :=
  decide (¬ (sumPrices (db.entries.filter (fun e => e.userId == user.id)) + p > user.budgetLimit))

/-- The write phase of `addEntry` (document and notification insertion). -/
def addEntryWrite (db : DB) (uid : UserId) (body : EntryBody) (p : ℚ) (user : User) : DB :=
  let entry : Entry :=
    { id := db.nextId, userId := uid, title := body.title,
      price := p, date := body.date, user := userSlug user }
  let notif : Notification :=
    { id := db.nextId + 1, userId := uid,
      message := body.title ++ " added successfully.",
      type := .add, isRead := false }
  { db with entries := db.entries ++ [entry],
            notifications := db.notifications ++ [notif],
            nextId := db.nextId + 2 }

/-- The interleaving of two concurrent `addEntry` requests in which both
aggregate reads happen before either save commits (possible because the
check and the save are separated by awaits): both checks run against the
same snapshot, then both writes are applied. If either check fails the
failing request writes nothing. -/
def addEntryRace (db : DB) (uid : UserId) (b1 b2 : EntryBody) (p1 p2 : ℚ) (user : User) : DB :=
  let pass1 := budgetCheckPasses db user p1
  let pass2 := budgetCheckPasses db user p2
  let db1 := if pass1 then addEntryWrite db uid b1 p1 user else db
  if pass2 then addEntryWrite db1 uid b2 p2 user else db1

/-- A protected request, reduced to the authorization header. -/
structure AuthReq where
  authorization : Option String
deriving Repr

/-- `split(c)` on a character list, as JavaScript `String.split` of a
single-character separator: no empty-input special case beyond splitting
the empty string to one empty field. -/
def splitChar (c : Char) : List Char → List (List Char)
  | [] => [[]]
  | a :: t =>
    let r := splitChar c t
    if a == c then [] :: r
    else
      match r with
      | [] => [[a]]
      | h :: t2 => (a :: h) :: t2

/-- Token extraction of the `protect` middleware: a header starting with
`Bearer` is split on spaces and the second part taken; the falsy check
`if (!token)` also rejects the empty string. -/
def extractToken (req : AuthReq) : Option String :=
  match req.authorization with
  | none => none
  | some h =>
    if isPrefixList "Bearer".toList h.toList then
      match (splitChar ' ' h.toList).get? 1 with
      | none => none
      | some t => if t.isEmpty then none else some (String.mk t)
    else none

/-- The `protect` middleware, parameterised by the JWT verification
function (`none` models `jwt.verify` throwing). Returns the `{id, role}`
attached to the request when the handler is invoked, or the 401 sent. -/
def protect (db : DB) (verify : String → Option UserId) (req : AuthReq) :
    Except ErrResp (UserId × String) :=
  match extractToken req with
  | none => .error ⟨401, "Not authorized, no token"⟩
  | some tok =>
    match verify tok with
    | none => .error ⟨401, "Not authorized, token failed"⟩
    | some decodedId =>
      match findUser db decodedId with
      | none => .error ⟨401, "Not authorized, user not found"⟩
      | some user => .ok (user.id, user.role)

/-- Sum of the prices of the entries of one user: what the
`$match userId / $group $sum price` aggregate of the controller computes. -/
def userTotal (db : DB) (uid : UserId) : ℚ :=
  sumPrices (db.entries.filter (fun e => e.userId == uid))

/-! Concrete sample data for witnesses. -/

def sampleUser : User := ⟨1, "Jane", "Doe", 100, "user"⟩

def sampleUser2 : User := ⟨2, "John", "Roe", 50, "user"⟩

def sampleEntry : Entry := ⟨7, 1, "groceries", 40, ⟨2026, 8, 10⟩, "jane-doe"⟩

def sampleEntry2 : Entry := ⟨8, 2, "rent", 30, ⟨2026, 8, 3⟩, "john-roe"⟩

def sampleNotif : Notification := ⟨3, 2, "rent added successfully.", .add, false⟩

def sampleDB : DB := ⟨[sampleUser, sampleUser2], [sampleEntry, sampleEntry2], [sampleNotif], 20⟩

def nanBody : EntryBody := ⟨"gift", none, ⟨2026, 8, 5⟩⟩

def okBody : EntryBody := ⟨"coffee", some 10, ⟨2026, 8, 12⟩⟩

def raceDB : DB := ⟨[sampleUser], [], [], 0⟩

def raceBody1 : EntryBody := ⟨"sofa", some 60, ⟨2026, 8, 5⟩⟩

def raceBody2 : EntryBody := ⟨"desk", some 70, ⟨2026, 8, 6⟩⟩

/-- Sum of the prices of the entries of one user dated in the calendar
month `(y, m)` (`m` 0-based). -/
def monthSum (db : DB) (uid : UserId) (y m : Int) : ℚ :=
  sumPrices (db.entries.filter
    (fun e => e.userId == uid && decide (e.date.year = y ∧ e.date.month = m)))

/-- Sum of the prices of the entries of one user dated on the day `d`. -/
def daySum (db : DB) (uid : UserId) (d : YMD) : ℚ :=
  sumPrices (db.entries.filter (fun e => e.userId == uid && decide (e.date = d)))

/-- Linear month index of a date. -/
def monthIndex (d : YMD) : Int := d.year * 12 + d.month

/-- What claim C3 asserts of the months array of one analysis response:
`n` calendar buckets ending at the current month, with per-bucket sums,
flags and remainders, and the aggregate fields. -/
def analysisMonthsSpec (db : DB) (uid : UserId) (user : User) (today : YMD)
    (range : String) (n : Nat) : Prop :=
  match (getBudgetAnalysis db uid range today).1 with
  | .error _ => False
  | .ok a =>
      a.months = (List.range n).map (fun i : Nat =>
        { year := (normYM today.year (today.month - (n - 1 : Nat) + i)).1,
          month := (normYM today.year (today.month - (n - 1 : Nat) + i)).2 + 1,
          monthName :=
            monthShortName (normYM today.year (today.month - (n - 1 : Nat) + i)).2,
          totalExpenses := monthSum db uid
            (normYM today.year (today.month - (n - 1 : Nat) + i)).1
            (normYM today.year (today.month - (n - 1 : Nat) + i)).2,
          budgetLimit := user.budgetLimit,
          exceeded := decide (monthSum db uid
            (normYM today.year (today.month - (n - 1 : Nat) + i)).1
            (normYM today.year (today.month - (n - 1 : Nat) + i)).2 > user.budgetLimit),
          remaining := user.budgetLimit - monthSum db uid
            (normYM today.year (today.month - (n - 1 : Nat) + i)).1
            (normYM today.year (today.month - (n - 1 : Nat) + i)).2 }) ∧
      a.months.length = n ∧
      a.totalExpenses = (a.months.map (fun b => b.totalExpenses)).sum ∧
      a.totalBudget = (n : ℚ) * user.budgetLimit ∧
      (a.overallExceeded = true ↔ ∃ b ∈ a.months, b.exceeded = true)

/-- What claim C4 asserts of the days array of a last-month analysis:
one bucket per day of the previous calendar month, each compared against
the full monthly budget limit. -/
def analysisDaysSpec (db : DB) (uid : UserId) (user : User) (today : YMD) : Prop :=
  match (getBudgetAnalysis db uid "last-month" today).1 with
  | .error _ => False
  | .ok a =>
      match a.days with
      | none => False
      | some ds =>
          ds.length = (daysInMonth (normYM today.year (today.month - 1)).1
            (normYM today.year (today.month - 1)).2).toNat ∧
          ds = (List.range (daysInMonth (normYM today.year (today.month - 1)).1
              (normYM today.year (today.month - 1)).2).toNat).map (fun i : Nat =>
            { year := (normYM today.year (today.month - 1)).1,
              month := (normYM today.year (today.month - 1)).2 + 1,
              day := (i : Int) + 1,
              date := ⟨(normYM today.year (today.month - 1)).1,
                (normYM today.year (today.month - 1)).2, (i : Int) + 1⟩,
              totalExpenses := daySum db uid ⟨(normYM today.year (today.month - 1)).1,
                (normYM today.year (today.month - 1)).2, (i : Int) + 1⟩,
              budgetLimit := user.budgetLimit,
              exceeded := decide (daySum db uid ⟨(normYM today.year (today.month - 1)).1,
                (normYM today.year (today.month - 1)).2, (i : Int) + 1⟩ > user.budgetLimit),
              remaining := user.budgetLimit -
                daySum db uid ⟨(normYM today.year (today.month - 1)).1,
                  (normYM today.year (today.month - 1)).2, (i : Int) + 1⟩ })

/-- Sum of the prices of the entries of one user other than the entry
`eid`: the aggregate the update handler checks against. -/
def othersTotal (db : DB) (uid : UserId) (eid : EntryId) : ℚ :=
  sumPrices (db.entries.filter (fun e => e.userId == uid && !(e.id == eid)))

def overBody : EntryBody := ⟨"tv", some 70, ⟨2026, 8, 20⟩⟩

def editBody : EntryBody := ⟨"veg", some 30, ⟨2026, 8, 11⟩⟩

/-! Basic lemmas about lookups. -/

theorem findUser_id {db : DB} {uid : UserId} {user : User}
    (hu : findUser db uid = some user) : user.id = uid := by
  have hu2 : db.users.find? (fun u => u.id == uid) = some user := hu
  have h := List.find?_some hu2
  simpa using h

theorem findEntry_props {db : DB} {uid : UserId} {eid : EntryId} {entry : Entry}
    (h : db.entries.find? (fun e => e.id == eid && e.userId == uid) = some entry) :
    entry ∈ db.entries ∧ entry.id = eid ∧ entry.userId = uid := by
  have h2 := List.find?_some h
  simp only [Bool.and_eq_true, beq_iff_eq] at h2
  exact ⟨List.mem_of_find?_eq_some h, h2.1, h2.2⟩

/-- Claim C8: on every server boot, once the database connection is
established, all notifications of every user are deleted while users and
entries are left unchanged, so immediately after startup the notification
store is empty. -/
theorem claim_C8 (db : DB) :
    (serverBoot db).notifications = [] ∧ (serverBoot db).users = db.users ∧
      (serverBoot db).entries = db.entries :=
  ⟨rfl, rfl, rfl⟩

/-- Claim C10: a create or update request whose price does not convert to a
non-negative number (NaN, modelled by `none`, or negative) yields HTTP 400
with message Invalid price value, and the database is unchanged: no entry
is created or modified and no notification is created. -/
theorem claim_C10 (db : DB) (uid : UserId) (eid : EntryId) (body : EntryBody)
    (h : body.price = none ∨ ∃ p, body.price = some p ∧ p < 0) :
    addEntry db uid body = (.error ⟨400, "Invalid price value"⟩, db) ∧
      updateEntry db uid eid body = (.error ⟨400, "Invalid price value"⟩, db) := by
  rcases h with h | ⟨p, hp, hneg⟩
  · exact ⟨by simp [addEntry, h], by simp [updateEntry, h]⟩
  · exact ⟨by simp [addEntry, hp, if_pos hneg], by simp [updateEntry, hp, if_pos hneg]⟩

/-- Witness for C10 at a concrete NaN-price request. -/
theorem claim_C10_witness :
    addEntry sampleDB 1 nanBody = (.error ⟨400, "Invalid price value"⟩, sampleDB) ∧
      updateEntry sampleDB 1 7 nanBody = (.error ⟨400, "Invalid price value"⟩, sampleDB) :=
  claim_C10 sampleDB 1 7 nanBody (Or.inl rfl)

/-- Claim C6: the budget check is not atomic with the write. In the
interleaving where both concurrent create requests of the same user read
the aggregate before either write commits, both pass the budget check and
both entries are saved although the resulting total exceeds the budget
limit (user limit 100, requests of 60 and 70). -/
theorem claim_C6 :
    budgetCheckPasses raceDB sampleUser 60 = true ∧
      budgetCheckPasses raceDB sampleUser 70 = true ∧
      (addEntryRace raceDB 1 raceBody1 raceBody2 60 70 sampleUser).entries.length = 2 ∧
      userTotal (addEntryRace raceDB 1 raceBody1 raceBody2 60 70 sampleUser) 1 >
        sampleUser.budgetLimit := by
  have h1 : budgetCheckPasses raceDB sampleUser 60 = true := by
    norm_num [budgetCheckPasses, raceDB, sampleUser, sumPrices]
  have h2 : budgetCheckPasses raceDB sampleUser 70 = true := by
    norm_num [budgetCheckPasses, raceDB, sampleUser, sumPrices]
  refine ⟨h1, h2, ?_, ?_⟩
  · simp only [addEntryRace, h1, h2, if_true]
    simp [addEntryWrite, raceDB]
  · simp only [addEntryRace, h1, h2, if_true]
    norm_num [addEntryWrite, raceDB, sampleUser, userTotal, sumPrices, raceBody1, raceBody2]

/-- Claim C9: the auth middleware invokes the route handler exactly when
the request carries a Bearer token that verifies and whose decoded id
names an existing user, attaching that user id and role; with no token,
a failing token, or an unknown user it responds 401 and the handler is
never invoked. -/
theorem claim_C9 (db : DB) (verify : String → Option UserId) (req : AuthReq) :
    (∀ t i u, extractToken req = some t → verify t = some i → findUser db i = some u →
        protect db verify req = .ok (u.id, u.role)) ∧
    (extractToken req = none →
        protect db verify req = .error ⟨401, "Not authorized, no token"⟩) ∧
    (∀ t, extractToken req = some t → verify t = none →
        protect db verify req = .error ⟨401, "Not authorized, token failed"⟩) ∧
    (∀ t i, extractToken req = some t → verify t = some i → findUser db i = none →
        protect db verify req = .error ⟨401, "Not authorized, user not found"⟩) := by
  refine ⟨?_, ?_, ?_, ?_⟩
  · intro t i u ht hv hu
    simp [protect, ht, hv, hu]
  · intro ht
    simp [protect, ht]
  · intro t ht hv
    simp [protect, ht, hv]
  · intro t i ht hv hu
    simp [protect, ht, hv, hu]

/-- Witness for C9: a concrete verified Bearer request reaches the handler
with the user id and role attached. -/
theorem claim_C9_witness :
    protect sampleDB (fun t => if t = "tok" then some 1 else none) ⟨some "Bearer tok"⟩ =
      .ok (sampleUser.id, sampleUser.role) :=
  (claim_C9 sampleDB (fun t => if t = "tok" then some 1 else none) ⟨some "Bearer tok"⟩).1
    "tok" 1 sampleUser (by decide) (by simp) (by rfl)

theorem sumPrices_cons (a : Entry) (l : List Entry) :
    sumPrices (a :: l) = a.price + sumPrices l := by
  simp [sumPrices]

/-- A sum of prices splits along any boolean predicate. -/
theorem sumPrices_filter_split (l : List Entry) (pr q : Entry → Bool) :
    sumPrices (l.filter pr) =
      sumPrices (l.filter (fun e => pr e && q e)) +
        sumPrices (l.filter (fun e => pr e && !q e)) := by
  induction l with
  | nil => simp [sumPrices]
  | cons a t ih =>
    by_cases hpa : pr a = true <;> by_cases hqa : q a = true <;>
      simp [List.filter_cons, hpa, hqa, sumPrices_cons, ih] <;> ring

/-- With globally distinct entry ids, filtering for the id of a member
entry (under any further condition the entry meets) yields that entry
alone. -/
theorem filter_id_single {l : List Entry} {e : Entry}
    (hn : (l.map (fun x => x.id)).Nodup) (hm : e ∈ l)
    (b : Entry → Bool) (hb : b e = true) :
    l.filter (fun x => b x && x.id == e.id) = [e] := by
  induction l with
  | nil => cases hm
  | cons a t ih =>
    rw [List.map_cons, List.nodup_cons] at hn
    rcases List.mem_cons.mp hm with rfl | hmt
    · have ht : t.filter (fun x => b x && x.id == e.id) = [] := by
        rw [List.filter_eq_nil_iff]
        intro x hx
        have : x.id ≠ e.id := by
          intro heq
          exact hn.1 (heq ▸ List.mem_map.mpr ⟨x, hx, rfl⟩)
        simp [this]
      rw [List.filter_cons, if_pos (by simp [hb]), ht]
    · have ha : a.id ≠ e.id := by
        intro heq
        exact hn.1 (heq ▸ List.mem_map.mpr ⟨e, hmt, rfl⟩)
      rw [List.filter_cons, if_neg (by simp [ha]), ih hn.2 hmt]

/-- The total of a user splits into the price of one owned entry plus the
total of the other entries, provided ids are globally unique. -/
theorem userTotal_split {db : DB} {uid : UserId} {eid : EntryId} {entry : Entry}
    (hf : db.entries.find? (fun e => e.id == eid && e.userId == uid) = some entry)
    (hn : (db.entries.map (fun x => x.id)).Nodup) :
    userTotal db uid = entry.price + othersTotal db uid eid := by
  obtain ⟨hmem, hide, huid⟩ := findEntry_props hf
  have hsplit := sumPrices_filter_split db.entries
    (fun e => e.userId == uid) (fun e => e.id == eid)
  have hone : db.entries.filter (fun x => (x.userId == uid) && x.id == entry.id) = [entry] :=
    filter_id_single hn hmem _ (by simp [huid])
  rw [hide] at hone
  rw [userTotal, hsplit, hone, othersTotal]
  simp [sumPrices]

/-- The create handler, for a valid price and an existing user, reduced to
its budget test. -/
theorem addEntry_split {db : DB} {uid : UserId} {body : EntryBody} {user : User} {p : ℚ}
    (hu : findUser db uid = some user) (hp : body.price = some p) (hnn : 0 ≤ p) :
    addEntry db uid body =
      if userTotal db uid + p > user.budgetLimit then
        (.error ⟨400, "Budget limit exceeded"⟩, db)
      else
        (.ok (entryView ⟨db.nextId, uid, body.title, p, body.date, userSlug user⟩),
          { db with
              entries := db.entries ++ [⟨db.nextId, uid, body.title, p, body.date, userSlug user⟩],
              notifications := db.notifications ++
                [⟨db.nextId + 1, uid, body.title ++ " added successfully.", .add, false⟩],
              nextId := db.nextId + 2 }) := by
  have hid := findUser_id hu
  simp only [addEntry, hp, hu, userTotal, hid]
  rw [if_neg (not_lt.mpr hnn)]

/-- The update handler, for a valid price and existing user and entry,
reduced to its budget test. -/
theorem updateEntry_split {db : DB} {uid : UserId} {eid : EntryId} {body : EntryBody}
    {entry : Entry} {user : User} {p : ℚ}
    (hf : db.entries.find? (fun e => e.id == eid && e.userId == uid) = some entry)
    (hu : findUser db uid = some user) (hp : body.price = some p) (hnn : 0 ≤ p) :
    updateEntry db uid eid body =
      if othersTotal db uid eid + p > user.budgetLimit then
        (.error ⟨400, "Budget limit exceeded"⟩, db)
      else
        (.ok (entryView { entry with
                            title := body.title, price := p, date := body.date,
                            user := userSlug user }),
          { db with
              entries := updateFirst (fun e => e.id == eid && e.userId == uid)
                (fun _ => { entry with
                              title := body.title, price := p, date := body.date,
                              user := userSlug user }) db.entries,
              notifications := db.notifications ++
                [⟨db.nextId, uid, body.title ++ " updated successfully.", .edit, false⟩],
              nextId := db.nextId + 1 }) := by
  have hid := findUser_id hu
  obtain ⟨hmem, hide, huid⟩ := findEntry_props hf
  simp only [updateEntry, hp, hf, hu, othersTotal, hid, hide]
  rw [if_neg (not_lt.mpr hnn)]

/-- Claim C1: with a valid non-negative price and an existing user, create
rejects with 400 Budget limit exceeded exactly when the sum of the prices
of the existing entries of the user plus the new price strictly exceeds
the budget limit; a request hitting the limit exactly is accepted; and a
rejected request leaves the database (entries and notifications) unchanged. -/
theorem claim_C1 (db : DB) (uid : UserId) (body : EntryBody) (user : User) (p : ℚ)
    (hu : findUser db uid = some user) (hp : body.price = some p) (hnn : 0 ≤ p) :
    ((addEntry db uid body).1 = .error ⟨400, "Budget limit exceeded"⟩ ↔
        userTotal db uid + p > user.budgetLimit)
    ∧ (userTotal db uid + p = user.budgetLimit →
        ∃ v, (addEntry db uid body).1 = .ok v)
    ∧ (userTotal db uid + p > user.budgetLimit → (addEntry db uid body).2 = db) := by
  have hs := addEntry_split hu hp hnn
  by_cases hc : userTotal db uid + p > user.budgetLimit
  · rw [if_pos hc] at hs
    refine ⟨⟨fun _ => hc, fun _ => by rw [hs]⟩, ?_, fun _ => by rw [hs]⟩
    intro heq
    exact absurd hc (by rw [heq]; exact lt_irrefl _)
  · rw [if_neg hc] at hs
    refine ⟨⟨fun he => ?_, fun hgt => absurd hgt hc⟩, fun _ => ⟨_, by rw [hs]⟩,
      fun hgt => absurd hgt hc⟩
    rw [hs] at he
    exact absurd he (by simp)

/-- Witness for C1: in the sample database (limit 100, existing total 40)
a 70-priced create is rejected and the database is unchanged, while in the
empty race database a create hitting the limit exactly is accepted. -/
theorem claim_C1_witness :
    ((addEntry sampleDB 1 overBody).1 = .error ⟨400, "Budget limit exceeded"⟩) ∧
      (addEntry sampleDB 1 overBody).2 = sampleDB := by
  have h := claim_C1 sampleDB 1 overBody sampleUser 70 rfl rfl (by norm_num)
  have hgt : userTotal sampleDB 1 + 70 > sampleUser.budgetLimit := by
    norm_num [userTotal, sumPrices, sampleDB, sampleEntry, sampleEntry2, sampleUser]
  exact ⟨h.1.mpr hgt, h.2.2 hgt⟩

/-- Claim C2: with a valid non-negative price, an update of an owned entry
rejects with 400 exactly when the sum of the prices of the other entries
of the user plus the new price strictly exceeds the budget limit; hence
an update that keeps or lowers the price of the entry is never rejected
when the total of the user was within budget before the update. -/
theorem claim_C2 (db : DB) (uid : UserId) (eid : EntryId) (body : EntryBody)
    (entry : Entry) (user : User) (p : ℚ)
    (hf : db.entries.find? (fun e => e.id == eid && e.userId == uid) = some entry)
    (hu : findUser db uid = some user) (hp : body.price = some p) (hnn : 0 ≤ p)
    (hn : (db.entries.map (fun x => x.id)).Nodup) :
    ((updateEntry db uid eid body).1 = .error ⟨400, "Budget limit exceeded"⟩ ↔
        othersTotal db uid eid + p > user.budgetLimit)
    ∧ (userTotal db uid ≤ user.budgetLimit → p ≤ entry.price →
        (updateEntry db uid eid body).1 ≠ .error ⟨400, "Budget limit exceeded"⟩) := by
  have hs := updateEntry_split hf hu hp hnn
  have hiff : (updateEntry db uid eid body).1 = .error ⟨400, "Budget limit exceeded"⟩ ↔
      othersTotal db uid eid + p > user.budgetLimit := by
    by_cases hc : othersTotal db uid eid + p > user.budgetLimit
    · rw [if_pos hc] at hs
      exact ⟨fun _ => hc, fun _ => by rw [hs]⟩
    · rw [if_neg hc] at hs
      refine ⟨fun he => ?_, fun hgt => absurd hgt hc⟩
      rw [hs] at he
      exact absurd he (by simp)
  refine ⟨hiff, fun hin hle hrej => ?_⟩
  have hgt := hiff.mp hrej
  have hsplit := userTotal_split hf hn
  rw [hsplit] at hin
  have : othersTotal db uid eid + p ≤ user.budgetLimit := by linarith
  linarith

/-- Witness for C2: updating the 40-priced sample entry down to 30 in a
database whose user total 40 is within the limit 100 is not rejected. -/
theorem claim_C2_witness :
    (updateEntry sampleDB 1 7 editBody).1 ≠ .error ⟨400, "Budget limit exceeded"⟩ := by
  have h := claim_C2 sampleDB 1 7 editBody sampleEntry sampleUser 30 rfl rfl rfl
    (by norm_num) (by decide)
  refine h.2 ?_ ?_
  · norm_num [userTotal, sumPrices, sampleDB, sampleEntry, sampleEntry2, sampleUser]
  · norm_num [sampleEntry]

/-- Claim C7: every successful entry mutation appends exactly one
notification for the requesting user, of type add, edit or delete
respectively, unread, whose message names the affected entry title; a
failed mutation appends none. -/
theorem claim_C7 :
    (∀ db uid body v db2, addEntry db uid body = (.ok v, db2) →
        db2.notifications = db.notifications ++
          [⟨db.nextId + 1, uid, body.title ++ " added successfully.", .add, false⟩]) ∧
    (∀ db uid body err db2, addEntry db uid body = (.error err, db2) →
        db2.notifications = db.notifications) ∧
    (∀ db uid eid body v db2, updateEntry db uid eid body = (.ok v, db2) →
        db2.notifications = db.notifications ++
          [⟨db.nextId, uid, body.title ++ " updated successfully.", .edit, false⟩]) ∧
    (∀ db uid eid body err db2, updateEntry db uid eid body = (.error err, db2) →
        db2.notifications = db.notifications) ∧
    (∀ db uid eid s db2, deleteEntry db uid eid = (.ok s, db2) →
        ∃ entry, db.entries.find? (fun e => e.id == eid && e.userId == uid) = some entry ∧
          db2.notifications = db.notifications ++
            [⟨db.nextId, uid, entry.title ++ " removed successfully.", .delete, false⟩]) ∧
    (∀ db uid eid err db2, deleteEntry db uid eid = (.error err, db2) →
        db2.notifications = db.notifications) := by
  refine ⟨?_, ?_, ?_, ?_, ?_, ?_⟩
  · intro db uid body v db2 h
    unfold addEntry at h
    dsimp only at h
    repeat' split at h
    all_goals injection h with h1 h2
    all_goals first
      | (subst h2; rfl)
      | simp at h1
  · intro db uid body err db2 h
    unfold addEntry at h
    dsimp only at h
    repeat' split at h
    all_goals injection h with h1 h2
    all_goals first
      | (subst h2; rfl)
      | simp at h1
  · intro db uid eid body v db2 h
    unfold updateEntry at h
    dsimp only at h
    repeat' split at h
    all_goals injection h with h1 h2
    all_goals first
      | (subst h2; rfl)
      | simp at h1
  · intro db uid eid body err db2 h
    unfold updateEntry at h
    dsimp only at h
    repeat' split at h
    all_goals injection h with h1 h2
    all_goals first
      | (subst h2; rfl)
      | simp at h1
  · intro db uid eid s db2 h
    unfold deleteEntry at h
    split at h
    · simp at h
    · rename_i entry heq
      injection h with h1 h2
      exact ⟨entry, heq, by subst h2; simp⟩
  · intro db uid eid err db2 h
    unfold deleteEntry at h
    split at h
    · injection h with h1 h2
      subst h2
      rfl
    · simp at h

/-- Witness for C7: the successful 60-priced create in the empty race
database appends exactly the expected unread add notification. -/
theorem claim_C7_witness :
    (addEntry raceDB 1 raceBody1).2.notifications =
      raceDB.notifications ++ [⟨1, 1, "sofa added successfully.", NotifType.add, false⟩] := by
  have hs := @addEntry_split raceDB 1 raceBody1 sampleUser 60 rfl rfl (by norm_num)
  rw [if_neg (by norm_num [userTotal, sumPrices, raceDB, sampleUser])] at hs
  have happ := claim_C7.1 raceDB 1 raceBody1 _ _ hs
  rw [hs]
  simp [raceDB, raceBody1] at happ ⊢

/-- Sorting never invents entries. -/
theorem sortEntries_mem {s : String} {l : List Entry} {x : Entry} :
    x ∈ sortEntries s l → x ∈ l := by
  unfold sortEntries
  split_ifs <;> simp [List.mem_mergeSort]

/-- The bulk mark-as-read write leaves the notifications of every other
user untouched. -/
theorem markAll_other_users (l : List Notification) (uid : UserId) :
    (l.map (fun n => if n.userId == uid && n.isRead == false
        then { n with isRead := true } else n)).filter (fun n => !(n.userId == uid)) =
      l.filter (fun n => !(n.userId == uid)) := by
  induction l with
  | nil => rfl
  | cons a t ih =>
    rw [List.map_cons]
    by_cases hc : (a.userId == uid && a.isRead == false) = true
    · have hua : (a.userId == uid) = true := by
        simp only [Bool.and_eq_true] at hc
        exact hc.1
      rw [if_pos hc, List.filter_cons, List.filter_cons,
        if_neg (by simp [hua]), if_neg (by simp [hua])]
      exact ih
    · rw [if_neg hc, List.filter_cons, List.filter_cons]
      by_cases hua : (a.userId == uid) = true
      · rw [if_neg (by simp [hua]), if_neg (by simp [hua])]
        exact ih
      · have h2 : (a.userId == uid) = false := by
          revert hua
          cases a.userId == uid <;> simp
        rw [if_pos (by simp [h2]), if_pos (by simp [h2]), ih]

/-- Filtering by a predicate that entails `A` factors through filtering
by `A`. -/
theorem filter_of_imp {α : Type} (l : List α) (Q A : α → Bool)
    (himp : ∀ e, Q e = true → A e = true) :
    l.filter Q = (l.filter A).filter Q := by
  induction l with
  | nil => rfl
  | cons a t ih =>
    by_cases hq : Q a = true
    · rw [List.filter_cons, if_pos (by simp [hq]), List.filter_cons,
        if_pos (by simp [himp a hq]), List.filter_cons, if_pos (by simp [hq]), ih]
    · rw [List.filter_cons, if_neg (by simp [hq])]
      by_cases hA : A a = true
      · rw [List.filter_cons, if_pos (by simp [hA]), List.filter_cons,
          if_neg (by simp [hq]), ih]
      · rw [List.filter_cons, if_neg (by simp [hA]), ih]

/-- The range-and-owner query of the analysis endpoint depends only on the
owner-filtered entries. -/
theorem analysisQuery_congr {l1 l2 : List Entry} {uid : UserId}
    (h : l1.filter (fun e => e.userId == uid) = l2.filter (fun e => e.userId == uid))
    (lo hi : YMD) :
    l1.filter (fun e => e.userId == uid && YMD.le lo e.date && YMD.le e.date hi) =
      l2.filter (fun e => e.userId == uid && YMD.le lo e.date && YMD.le e.date hi) := by
  have himp : ∀ e : Entry, (e.userId == uid && YMD.le lo e.date && YMD.le e.date hi) = true →
      (e.userId == uid) = true := by
    intro e he
    simp only [Bool.and_eq_true] at he
    exact he.1.1
  rw [filter_of_imp l1 _ _ himp, filter_of_imp l2 _ _ himp, h]

/-- Claim C5: every endpoint reads and writes only the documents of the
authenticated user. Listing returns only owned entries and notifications;
an update, delete or mark-as-read addressed to a document that exists but
belongs to another user answers 404 and changes nothing; a create inserts
an entry owned by the requester; the bulk mark-as-read rewrites only the
notifications of the user; the unread count and the budget analysis read
only the documents of the user, the analysis changing no state. -/
theorem claim_C5 :
    (∀ db uid ps v, v ∈ (getUserEntries db uid ps).entries →
        ∃ e, e ∈ db.entries ∧ e.userId = uid ∧ v = entryView e) ∧
    (∀ db uid n, n ∈ getUserNotifications db uid → n.userId = uid) ∧
    (∀ db uid eid body p, body.price = some p → 0 ≤ p →
        (∀ x ∈ db.entries, x.id = eid → x.userId ≠ uid) →
        (∃ x, x ∈ db.entries ∧ x.id = eid) →
        updateEntry db uid eid body = (.error ⟨404, "Entry not found"⟩, db)) ∧
    (∀ db uid eid, (∀ x ∈ db.entries, x.id = eid → x.userId ≠ uid) →
        (∃ x, x ∈ db.entries ∧ x.id = eid) →
        deleteEntry db uid eid = (.error ⟨404, "Entry not found"⟩, db)) ∧
    (∀ db uid nid, (∀ x ∈ db.notifications, x.id = nid → x.userId ≠ uid) →
        (∃ x, x ∈ db.notifications ∧ x.id = nid) →
        markNotificationAsRead db uid nid = (.error ⟨404, "Notification not found"⟩, db)) ∧
    (∀ db uid body v db2, addEntry db uid body = (.ok v, db2) →
        ∃ en, db2.entries = db.entries ++ [en] ∧ en.userId = uid) ∧
    (∀ db uid, ((markAllNotificationsAsRead db uid).2.notifications.filter
          (fun n => !(n.userId == uid)) =
        db.notifications.filter (fun n => !(n.userId == uid))) ∧
      (markAllNotificationsAsRead db uid).2.entries = db.entries ∧
      (markAllNotificationsAsRead db uid).2.users = db.users) ∧
    (∀ db db2 uid, db.notifications.filter (fun n => n.userId == uid) =
          db2.notifications.filter (fun n => n.userId == uid) →
        getUnreadNotificationCount db uid = getUnreadNotificationCount db2 uid) ∧
    (∀ db db2 uid range today, db.users = db2.users →
        db.entries.filter (fun e => e.userId == uid) =
          db2.entries.filter (fun e => e.userId == uid) →
        (getBudgetAnalysis db uid range today).1 = (getBudgetAnalysis db2 uid range today).1) ∧
    (∀ db uid range today, (getBudgetAnalysis db uid range today).2 = db) := by
  refine ⟨?_, ?_, ?_, ?_, ?_, ?_, ?_, ?_, ?_, ?_⟩
  · intro db uid ps v hv
    unfold getUserEntries at hv
    dsimp only at hv
    obtain ⟨x, hx, hxv⟩ := List.mem_map.mp hv
    have hx2 : x ∈ sortEntries ps.sortBy (db.entries.filter (entryMatches uid ps)) :=
      List.mem_of_mem_drop (List.mem_of_mem_take hx)
    have hx3 := sortEntries_mem hx2
    obtain ⟨hmem, hpred⟩ := List.mem_filter.mp hx3
    refine ⟨x, hmem, ?_, hxv.symm⟩
    unfold entryMatches at hpred
    simp only [Bool.and_eq_true, beq_iff_eq] at hpred
    exact hpred.1.1
  · intro db uid n hn
    unfold getUserNotifications at hn
    have hn2 := List.mem_reverse.mp (List.mem_of_mem_take hn)
    obtain ⟨-, hpred⟩ := List.mem_filter.mp hn2
    simpa using hpred
  · intro db uid eid body p hp hnn hfor _
    have hnone : db.entries.find? (fun e => e.id == eid && e.userId == uid) = none := by
      rw [List.find?_eq_none]
      intro x hx
      simp only [Bool.and_eq_true, beq_iff_eq, not_and]
      exact fun hid => hfor x hx hid
    simp only [updateEntry, hp, hnone]
    rw [if_neg (not_lt.mpr hnn)]
  · intro db uid eid hfor _
    have hnone : db.entries.find? (fun e => e.id == eid && e.userId == uid) = none := by
      rw [List.find?_eq_none]
      intro x hx
      simp only [Bool.and_eq_true, beq_iff_eq, not_and]
      exact fun hid => hfor x hx hid
    simp only [deleteEntry, hnone]
  · intro db uid nid hfor _
    have hnone : db.notifications.find? (fun n => n.id == nid && n.userId == uid) = none := by
      rw [List.find?_eq_none]
      intro x hx
      simp only [Bool.and_eq_true, beq_iff_eq, not_and]
      exact fun hid => hfor x hx hid
    simp only [markNotificationAsRead, hnone]
  · intro db uid body v db2 h
    unfold addEntry at h
    dsimp only at h
    repeat' split at h
    all_goals injection h with h1 h2
    all_goals first
      | (subst h2; exact ⟨_, rfl, rfl⟩)
      | simp at h1
  · intro db uid
    refine ⟨?_, rfl, rfl⟩
    exact markAll_other_users db.notifications uid
  · intro db db2 uid h
    unfold getUnreadNotificationCount
    have himp : ∀ n : Notification, (n.userId == uid && n.isRead == false) = true →
        (n.userId == uid) = true := by
      intro n hn
      simp only [Bool.and_eq_true] at hn
      exact hn.1
    rw [filter_of_imp db.notifications _ _ himp, filter_of_imp db2.notifications _ _ himp, h]
  · intro db db2 uid range today husers hentries
    have hfu : findUser db2 uid = findUser db uid := by
      unfold findUser
      rw [husers]
    cases hu : findUser db uid with
    | none =>
      rw [hu] at hfu
      simp only [getBudgetAnalysis, hu, hfu]
    | some user =>
      rw [hu] at hfu
      have hid := findUser_id hu
      have hall : ∀ lo hi : YMD,
          db.entries.filter
              (fun e => e.userId == user.id && YMD.le lo e.date && YMD.le e.date hi) =
            db2.entries.filter
              (fun e => e.userId == user.id && YMD.le lo e.date && YMD.le e.date hi) := by
        intro lo hi
        rw [hid]
        exact analysisQuery_congr hentries lo hi
      simp only [getBudgetAnalysis, hu, hfu]
      rw [hall]
  · intro db uid range today
    unfold getBudgetAnalysis
    cases hu : findUser db uid <;> simp

/-- Witness for C5: an update by user 1 addressed to entry 8, which exists
but belongs to user 2, answers 404 and leaves the database unchanged. -/
theorem claim_C5_witness :
    updateEntry sampleDB 1 8 editBody = (.error ⟨404, "Entry not found"⟩, sampleDB) :=
  claim_C5.2.2.1 sampleDB 1 8 editBody 30 rfl (by norm_num)
    (by decide)
    ⟨sampleEntry2, by simp [sampleDB], rfl⟩

/-! Calendar arithmetic lemmas. -/

theorem normYM_bounds (y m : Int) : 0 ≤ (normYM y m).2 ∧ (normYM y m).2 < 12 := by
  unfold normYM
  constructor <;> omega

theorem normYM_index (y m : Int) : (normYM y m).1 * 12 + (normYM y m).2 = y * 12 + m := by
  unfold normYM
  dsimp only
  omega

theorem normYM_id {y m : Int} (h1 : 0 ≤ m) (h2 : m < 12) : normYM y m = (y, m) := by
  unfold normYM
  rw [Prod.mk.injEq]
  constructor <;> omega

/-- With the month components in range, the date order is the order of
month index then day. -/
theorem le_iff_index {a b : YMD} (ha1 : 0 ≤ a.month) (ha2 : a.month < 12)
    (hb1 : 0 ≤ b.month) (hb2 : b.month < 12) :
    YMD.le a b = true ↔
      (monthIndex a < monthIndex b ∨ (monthIndex a = monthIndex b ∧ a.day ≤ b.day)) := by
  unfold YMD.le monthIndex
  rw [decide_eq_true_eq]
  omega

theorem mkDate_zero {y m : Int} (h1 : 0 ≤ m) (h2 : m < 12) :
    mkDate y (m + 1) 0 = ⟨y, m, daysInMonth y m⟩ := by
  unfold mkDate
  rw [if_pos rfl]
  have hm : m + 1 - 1 = m := by omega
  rw [hm, normYM_id h1 h2]

theorem mkDate_pos {y m d : Int} (hd : d ≠ 0) :
    mkDate y m d = ⟨(normYM y m).1, (normYM y m).2, d⟩ := by
  unfold mkDate
  rw [if_neg hd]

theorem addMonth_day1 (y m : Int) :
    YMD.addMonth ⟨y, m, 1⟩ = ⟨(normYM y (m + 1)).1, (normYM y (m + 1)).2, 1⟩ := rfl

/-- When the guard is false the month loop stops at once, at any fuel. -/
theorem monthLoop_nil {fuel : Nat} {cur endD : YMD} {mexp : List ((Int × Int) × ℚ)}
    {limit : ℚ} (h : YMD.le cur endD = false) :
    monthLoop fuel cur endD mexp limit = [] := by
  cases fuel with
  | zero => rfl
  | succ f =>
    rw [monthLoop, h]
    simp

/-- The month loop on a day-1 cursor `k` months before the end of the
range produces one bucket per month of the range, in order. -/
theorem monthLoop_eq (k : Nat) :
    ∀ (fuel : Nat) (y m : Int) (endD : YMD) (mexp : List ((Int × Int) × ℚ)) (limit : ℚ),
      0 ≤ m → m < 12 → 0 ≤ endD.month → endD.month < 12 → 1 ≤ endD.day →
      monthIndex endD = y * 12 + m + k →
      k < fuel →
      monthLoop fuel ⟨y, m, 1⟩ endD mexp limit =
        (List.range (k + 1)).map (fun i : Nat =>
          mkMonthBucket (normYM y (m + (i : Int))).1 (normYM y (m + (i : Int))).2 mexp limit) := by
  induction k with
  | zero =>
    intro fuel y m endD mexp limit h1 h2 h3 h4 h5 hidx hf
    match fuel, hf with
    | f + 1, _ =>
      rw [monthLoop]
      have hle : YMD.le ⟨y, m, 1⟩ endD = true := by
        rw [le_iff_index h1 h2 h3 h4]
        right
        constructor
        · unfold monthIndex at hidx ⊢
          dsimp only
          omega
        · exact h5
      rw [if_pos hle]
      have hnext : YMD.le (YMD.addMonth ⟨y, m, 1⟩) endD = false := by
        rw [addMonth_day1]
        have hb := normYM_bounds y (m + 1)
        have hi := normYM_index y (m + 1)
        rw [Bool.eq_false_iff]
        intro hcontra
        rw [le_iff_index hb.1 hb.2 h3 h4] at hcontra
        unfold monthIndex at hcontra hidx
        dsimp only at hcontra
        omega
      rw [monthLoop_nil hnext]
      rw [show List.range 1 = [0] from rfl]
      simp [normYM_id h1 h2]
  | succ k ih =>
    intro fuel y m endD mexp limit h1 h2 h3 h4 h5 hidx hf
    match fuel, hf with
    | f + 1, _ =>
      rw [monthLoop]
      have hle : YMD.le ⟨y, m, 1⟩ endD = true := by
        rw [le_iff_index h1 h2 h3 h4]
        left
        unfold monthIndex at hidx ⊢
        dsimp only
        omega
      rw [if_pos hle, addMonth_day1]
      have hb := normYM_bounds y (m + 1)
      have hi := normYM_index y (m + 1)
      have hrec := ih f (normYM y (m + 1)).1 (normYM y (m + 1)).2 endD mexp limit
        hb.1 hb.2 h3 h4 h5 (by unfold monthIndex at hidx ⊢; push_cast at hidx ⊢; omega)
        (by omega)
      rw [hrec]
      conv_rhs => rw [List.range_succ_eq_map, List.map_cons, List.map_map]
      congr 1
      · simp [normYM_id h1 h2]
      · apply List.map_congr_left
        intro i hi2
        have heq : normYM (normYM y (m + 1)).1 ((normYM y (m + 1)).2 + (i : Int)) =
            normYM y (m + ((i + 1 : Nat) : Int)) := by
          unfold normYM at hi ⊢
          dsimp only at hi ⊢
          rw [Prod.mk.injEq]
          push_cast
          constructor <;> omega
        simp only [Function.comp]
        rw [heq]

/-! Lemmas about the grouping maps. -/

theorem lookupQ_nil [DecidableEq κ] (k : κ) : lookupQ ([] : List (κ × ℚ)) k = 0 := rfl

theorem lookupQ_cons [DecidableEq κ] (a : κ) (b : ℚ) (t : List (κ × ℚ)) (k : κ) :
    lookupQ ((a, b) :: t) k = if a = k then b else lookupQ t k := by
  unfold lookupQ
  by_cases h : a = k
  · rw [List.find?_cons_of_pos _ (by simp [h]), if_pos h]
  · rw [List.find?_cons_of_neg _ (by simp [h]), if_neg h]

theorem lookupQ_bumpKey [DecidableEq κ] (m : List (κ × ℚ)) (k2 : κ) (v : ℚ) (k : κ) :
    lookupQ (bumpKey k2 v m) k = lookupQ m k + (if k2 = k then v else 0) := by
  induction m with
  | nil =>
    by_cases h : k2 = k <;> simp [bumpKey, lookupQ_cons, lookupQ_nil, h]
  | cons p t ih =>
    obtain ⟨k1, v1⟩ := p
    have hcons : bumpKey k2 v ((k1, v1) :: t) =
        if k1 = k2 then (k1, v1 + v) :: t else (k1, v1) :: bumpKey k2 v t := rfl
    by_cases h12 : k1 = k2
    · subst h12
      rw [hcons, if_pos rfl]
      by_cases h : k1 = k
      · rw [lookupQ_cons, if_pos h, lookupQ_cons, if_pos h, if_pos h]
      · rw [lookupQ_cons, if_neg h, lookupQ_cons, if_neg h, if_neg h, add_zero]
    · rw [hcons, if_neg h12]
      by_cases h : k1 = k
      · have hk2 : k2 ≠ k := fun hc => h12 (h.trans hc.symm)
        rw [lookupQ_cons, if_pos h, lookupQ_cons, if_pos h, if_neg hk2, add_zero]
      · rw [lookupQ_cons, if_neg h, lookupQ_cons, if_neg h, ih]

/-- Looking up a key in the accumulated grouping map yields the sum of the
prices of the entries with that key. -/
theorem groupFold_lookup [DecidableEq κ] (keyOf : Entry → κ) (entries : List Entry) :
    ∀ (init : List (κ × ℚ)) (k : κ),
      lookupQ (entries.foldl (fun m e => bumpKey (keyOf e) e.price m) init) k =
        lookupQ init k + sumPrices (entries.filter (fun e => decide (keyOf e = k))) := by
  induction entries with
  | nil =>
    intro init k
    simp [sumPrices]
  | cons e t ih =>
    intro init k
    rw [List.foldl_cons, ih, lookupQ_bumpKey, List.filter_cons]
    by_cases h : keyOf e = k
    · rw [if_pos h, if_pos (show (decide (keyOf e = k)) = true from by simp [h]),
        sumPrices_cons]
      ring
    · rw [if_neg h, add_zero,
        if_neg (show ¬ (decide (keyOf e = k)) = true from by simp [h])]

theorem groupMonths_lookup (entries : List Entry) (y m : Int) :
    lookupQ (groupMonths entries) (y, m) =
      sumPrices (entries.filter (fun e => decide (e.date.year = y ∧ e.date.month = m))) := by
  unfold groupMonths
  rw [groupFold_lookup (fun e => (e.date.year, e.date.month)) entries [] (y, m),
    lookupQ_nil, zero_add]
  congr 1
  apply List.filter_congr
  intro e _
  simp [Prod.ext_iff]

theorem groupDays_lookup (entries : List Entry) (d : YMD) :
    lookupQ (groupDays entries) d =
      sumPrices (entries.filter (fun e => decide (e.date = d))) := by
  unfold groupDays
  rw [groupFold_lookup (fun e => e.date) entries [] d, lookupQ_nil, zero_add]

theorem sumPrices_mergeSort (le : Entry → Entry → Bool) (l : List Entry) (p : Entry → Bool) :
    sumPrices ((l.mergeSort le).filter p) = sumPrices (l.filter p) := by
  have hperm := (List.mergeSort_perm l le).filter p
  unfold sumPrices
  exact (hperm.map _).sum_eq

theorem filter_filter_and {α : Type} (l : List α) (A B : α → Bool) :
    (l.filter A).filter B = l.filter (fun e => A e && B e) := by
  induction l with
  | nil => rfl
  | cons a t ih =>
    by_cases hA : A a = true
    · by_cases hB : B a = true <;>
        simp [List.filter_cons, hA, hB, ih]
    · simp [List.filter_cons, hA, ih]

/-- Filtering the sorted, range-restricted entry query by a key that
implies membership of the range gives the same price sum as filtering the
full collection of the user by that key. -/
theorem analysis_bucket_sum (db : DB) (user : User) (uid : UserId) (hid : user.id = uid)
    (startD endD : YMD) (K : Entry → Bool)
    (hK : ∀ e ∈ db.entries, K e = true →
      (YMD.le startD e.date && YMD.le e.date endD) = true) :
    sumPrices (((db.entries.filter (fun e => e.userId == user.id &&
          YMD.le startD e.date && YMD.le e.date endD)).mergeSort
            (fun a b => YMD.le a.date b.date)).filter K) =
      sumPrices (db.entries.filter (fun e => e.userId == uid && K e)) := by
  rw [sumPrices_mergeSort, filter_filter_and]
  congr 1
  apply List.filter_congr
  intro e he
  by_cases hKe : K e = true
  · have hR := hK e he hKe
    simp only [Bool.and_eq_true] at hR
    simp [hKe, hR.1, hR.2, hid]
  · have : K e = false := by revert hKe; cases K e <;> simp
    simp [this]

theorem normYM_congr {y m y2 m2 : Int} (h : y * 12 + m = y2 * 12 + m2) :
    normYM y m = normYM y2 m2 := by
  unfold normYM
  rw [Prod.mk.injEq]
  constructor <;> omega

theorem daysInMonth_pos (y m : Int) : 1 ≤ daysInMonth y m := by
  unfold daysInMonth
  split_ifs <;> norm_num

/-- The whole month pipeline of the analysis handler, for a range starting
`s` months back on day 1 and ending on the last day of the current month:
one bucket per calendar month, totalled from the entries of the user. -/
theorem monthsPipeline (db : DB) (uid : UserId) (user : User) (hid : user.id = uid)
    (hvalid : ∀ e ∈ db.entries, validYMD e.date)
    (cy cm : Int) (hm1 : 0 ≤ cm) (hm2 : cm < 12) (s : Nat)
    (startD endD : YMD) (allE : List Entry)
    (hstart : startD = mkDate cy (cm - s) 1)
    (hend : endD = ⟨cy, cm, daysInMonth cy cm⟩)
    (hallE : allE = (db.entries.filter (fun e => e.userId == user.id &&
        YMD.le startD e.date && YMD.le e.date endD)).mergeSort
          (fun a b => YMD.le a.date b.date)) :
    monthLoop (monthsFuel startD endD) startD endD (groupMonths allE) user.budgetLimit =
      (List.range (s + 1)).map (fun i : Nat =>
        { year := (normYM cy (cm - s + i)).1,
          month := (normYM cy (cm - s + i)).2 + 1,
          monthName := monthShortName (normYM cy (cm - s + i)).2,
          totalExpenses := monthSum db uid (normYM cy (cm - s + i)).1 (normYM cy (cm - s + i)).2,
          budgetLimit := user.budgetLimit,
          exceeded := decide (monthSum db uid (normYM cy (cm - s + i)).1
            (normYM cy (cm - s + i)).2 > user.budgetLimit),
          remaining := user.budgetLimit -
            monthSum db uid (normYM cy (cm - s + i)).1 (normYM cy (cm - s + i)).2 }) := by
  have hsd : startD = ⟨(normYM cy (cm - s)).1, (normYM cy (cm - s)).2, 1⟩ := by
    rw [hstart, mkDate_pos one_ne_zero]
  have hb := normYM_bounds cy (cm - s)
  have hix := normYM_index cy (cm - s)
  have hdim := daysInMonth_pos cy cm
  have hfuel : monthsFuel startD endD = s + 1 := by
    rw [hsd, hend]
    unfold monthsFuel
    dsimp only
    omega
  rw [hfuel, hsd]
  rw [monthLoop_eq s (s + 1) (normYM cy (cm - s)).1 (normYM cy (cm - s)).2 endD
    (groupMonths allE) user.budgetLimit hb.1 hb.2
    (by rw [hend]; exact hm1) (by rw [hend]; exact hm2)
    (by rw [hend]; exact hdim)
    (by rw [hend]; unfold monthIndex; dsimp only; omega)
    (by omega)]
  apply List.map_congr_left
  intro i hi
  have hiR := List.mem_range.mp hi
  have hnc : normYM (normYM cy (cm - s)).1 ((normYM cy (cm - s)).2 + (i : Int)) =
      normYM cy (cm - s + i) := normYM_congr (by omega)
  have hb2 := normYM_bounds cy (cm - s + i)
  have hix2 := normYM_index cy (cm - s + i)
  have hlook : lookupQ (groupMonths allE) ((normYM cy (cm - s + i)).1,
      (normYM cy (cm - s + i)).2) =
      monthSum db uid (normYM cy (cm - s + i)).1 (normYM cy (cm - s + i)).2 := by
    rw [groupMonths_lookup, hallE]
    unfold monthSum
    apply analysis_bucket_sum db user uid hid
    intro e he hKe
    rw [decide_eq_true_eq] at hKe
    have hv := hvalid e he
    obtain ⟨hv1, hv2, hv3, hv4⟩ := hv
    have hstartb := normYM_bounds cy (cm - s)
    rw [Bool.and_eq_true]
    constructor
    · rw [hsd, le_iff_index hstartb.1 hstartb.2 (hKe.2 ▸ hb2.1) (hKe.2 ▸ hb2.2)]
      unfold monthIndex
      dsimp only
      rw [hKe.1, hKe.2]
      omega
    · rw [hend, le_iff_index (hKe.2 ▸ hb2.1) (hKe.2 ▸ hb2.2) hm1 hm2]
      unfold monthIndex
      dsimp only
      rw [hKe.1, hKe.2]
      by_cases hlast : (normYM cy (cm - s + i)).1 * 12 + (normYM cy (cm - s + i)).2 =
          cy * 12 + cm
      · right
        have hy : (normYM cy (cm - s + i)).1 = cy ∧ (normYM cy (cm - s + i)).2 = cm := by
          constructor <;> omega
        refine ⟨by omega, ?_⟩
        calc e.date.day ≤ daysInMonth e.date.year e.date.month := hv4
          _ = daysInMonth cy cm := by rw [hKe.1, hKe.2, hy.1, hy.2]
      · left
        omega
  rw [mkMonthBucket, hnc, hlook]

theorem get_map_range {β : Type} (f : Nat → β) (n i : Nat)
    (h : i < ((List.range n).map f).length) :
    ((List.range n).map f).get ⟨i, h⟩ = f i := by
  simp

/-- The analysis handler never writes. -/
theorem getBudgetAnalysis_state (db : DB) (uid : UserId) (range : String) (today : YMD) :
    (getBudgetAnalysis db uid range today).2 = db := by
  unfold getBudgetAnalysis
  cases hu : findUser db uid <;> simp

/-- The months part of claim C3, for either non-last-month range: the
response holds `s + 1` calendar buckets ending at the current month. -/
theorem months_spec_aux (db : DB) (uid : UserId) (user : User) (today : YMD)
    (hu : findUser db uid = some user)
    (hm1 : 0 ≤ today.month) (hm2 : today.month < 12)
    (hvalid : ∀ e ∈ db.entries, validYMD e.date)
    (range : String) (s : Nat)
    (hn1 : ¬ (range = "last-month"))
    (h2 : (range = "last-6-months" ∧ s = 5) ∨ (¬ range = "last-6-months" ∧ s = 11)) :
    analysisMonthsSpec db uid user today range (s + 1) := by
  have hid := findUser_id hu
  unfold analysisMonthsSpec
  simp only [getBudgetAnalysis, hu]
  simp only [if_neg hn1]
  have hend : mkDate today.year (today.month + 1) 0 =
      ⟨today.year, today.month, daysInMonth today.year today.month⟩ := mkDate_zero hm1 hm2
  rcases h2 with ⟨hr, rfl⟩ | ⟨hr, rfl⟩
  · simp only [if_pos hr]
    have hmonths := monthsPipeline db uid user hid hvalid today.year today.month hm1 hm2 5
      (mkDate today.year (today.month - 5) 1) (mkDate today.year (today.month + 1) 0) _
      (by norm_num) hend rfl
    exact ⟨hmonths, by rw [hmonths]; simp, by trivial, by rw [hmonths]; simp,
      by simp [List.any_eq_true]⟩
  · simp only [if_neg hr]
    have hmonths := monthsPipeline db uid user hid hvalid today.year today.month hm1 hm2 11
      (mkDate today.year (today.month - 11) 1) (mkDate today.year (today.month + 1) 0) _
      (by norm_num) hend rfl
    exact ⟨hmonths, by rw [hmonths]; simp, by trivial, by rw [hmonths]; simp,
      by simp [List.any_eq_true]⟩

/-- Claim C3: for the last-6-months (resp. last-12-months) range the
analysis returns exactly 6 (resp. 12) calendar month buckets ending at the
current month, each totalling the entries of the user dated in that month,
with strict exceeded flags and remainders, correct aggregates, and no
state modification. -/
theorem claim_C3 (db : DB) (uid : UserId) (user : User) (today : YMD)
    (hu : findUser db uid = some user)
    (hm1 : 0 ≤ today.month) (hm2 : today.month < 12)
    (hvalid : ∀ e ∈ db.entries, validYMD e.date) :
    analysisMonthsSpec db uid user today "last-6-months" 6 ∧
      analysisMonthsSpec db uid user today "last-12-months" 12 ∧
      (∀ range, (getBudgetAnalysis db uid range today).2 = db) := by
  refine ⟨?_, ?_, fun range => getBudgetAnalysis_state db uid range today⟩
  · exact months_spec_aux db uid user today hu hm1 hm2 hvalid _ 5
      (by decide) (Or.inl ⟨rfl, rfl⟩)
  · exact months_spec_aux db uid user today hu hm1 hm2 hvalid _ 11
      (by decide) (Or.inr ⟨by decide, rfl⟩)

/-- The day pipeline of the last-month branch: one bucket per day of the
previous month, each totalled from the entries of the user dated that day
and compared against the full monthly budget limit. -/
theorem daysPipeline (db : DB) (uid : UserId) (user : User) (hid : user.id = uid)
    (hvalid : ∀ e ∈ db.entries, validYMD e.date)
    (py pm : Int) (hp1 : 0 ≤ pm) (hp2 : pm < 12)
    (startD endD : YMD) (allE : List Entry)
    (hstart : startD = ⟨py, pm, 1⟩)
    (hend : endD = ⟨py, pm, daysInMonth py pm⟩)
    (hallE : allE = (db.entries.filter (fun e => e.userId == user.id &&
        YMD.le startD e.date && YMD.le e.date endD)).mergeSort
          (fun a b => YMD.le a.date b.date)) :
    dayLoop endD.day.toNat startD.year startD.month (groupDays allE) user.budgetLimit =
      (List.range (daysInMonth py pm).toNat).map (fun i : Nat =>
        { year := py, month := pm + 1, day := (i : Int) + 1, date := ⟨py, pm, (i : Int) + 1⟩,
          totalExpenses := daySum db uid ⟨py, pm, (i : Int) + 1⟩,
          budgetLimit := user.budgetLimit,
          exceeded := decide (daySum db uid ⟨py, pm, (i : Int) + 1⟩ > user.budgetLimit),
          remaining := user.budgetLimit - daySum db uid ⟨py, pm, (i : Int) + 1⟩ }) := by
  subst hstart hend hallE
  unfold dayLoop
  dsimp only
  apply List.map_congr_left
  intro i hi
  have hiR := List.mem_range.mp hi
  have hdim := daysInMonth_pos py pm
  have hday : ((i : Int) + 1) ≤ daysInMonth py pm := by omega
  have hdate : mkDate py pm ((i : Int) + 1) = ⟨py, pm, (i : Int) + 1⟩ := by
    rw [mkDate_pos (by omega), normYM_id hp1 hp2]
  rw [hdate]
  have hlook : lookupQ (groupDays ((db.entries.filter (fun e => e.userId == user.id &&
      YMD.le ⟨py, pm, 1⟩ e.date && YMD.le e.date ⟨py, pm, daysInMonth py pm⟩)).mergeSort
        (fun a b => YMD.le a.date b.date)))
      (⟨py, pm, (i : Int) + 1⟩ : YMD) = daySum db uid ⟨py, pm, (i : Int) + 1⟩ := by
    rw [groupDays_lookup]
    unfold daySum
    apply analysis_bucket_sum db user uid hid
    intro e he hKe
    rw [decide_eq_true_eq] at hKe
    obtain ⟨hv1, hv2, hv3, hv4⟩ := hvalid e he
    rw [Bool.and_eq_true]
    constructor
    · rw [le_iff_index hp1 hp2 (by rw [hKe]; exact hp1) (by rw [hKe]; exact hp2)]
      unfold monthIndex
      rw [hKe]
      right
      exact ⟨rfl, by dsimp only; omega⟩
    · rw [le_iff_index (by rw [hKe]; exact hp1) (by rw [hKe]; exact hp2) hp1 hp2]
      unfold monthIndex
      rw [hKe]
      right
      exact ⟨rfl, by dsimp only; omega⟩
  rw [hlook]

/-- Claim C4: for range last-month the response carries one day bucket for
every day of the previous calendar month, each day totalling the entries
of the user dated that day, with the full undivided monthly budget limit,
a strict exceeded flag and the corresponding remainder. -/
theorem claim_C4 (db : DB) (uid : UserId) (user : User) (today : YMD)
    (hu : findUser db uid = some user)
    (hm1 : 0 ≤ today.month) (hm2 : today.month < 12)
    (hvalid : ∀ e ∈ db.entries, validYMD e.date) :
    analysisDaysSpec db uid user today := by
  have hid := findUser_id hu
  have hb := normYM_bounds today.year (today.month - 1)
  unfold analysisDaysSpec
  simp only [getBudgetAnalysis, hu]
  simp only [show (("last-month" : String) = "last-6-months") = False from by simp,
    if_true, if_false]
  have hstart2 : mkDate (if today.month = 0 then today.year - 1 else today.year)
      (if today.month = 0 then 11 else today.month - 1) 1 =
      ⟨(normYM today.year (today.month - 1)).1, (normYM today.year (today.month - 1)).2, 1⟩ := by
    rw [mkDate_pos one_ne_zero]
    unfold normYM
    split_ifs <;> simp [YMD.mk.injEq] <;> constructor <;> omega
  have hend2 : mkDate (if today.month = 0 then today.year - 1 else today.year)
      ((if today.month = 0 then 11 else today.month - 1) + 1) 0 =
      ⟨(normYM today.year (today.month - 1)).1, (normYM today.year (today.month - 1)).2,
        daysInMonth (normYM today.year (today.month - 1)).1
          (normYM today.year (today.month - 1)).2⟩ := by
    unfold mkDate
    rw [if_pos rfl]
    have hym : normYM (if today.month = 0 then today.year - 1 else today.year)
        ((if today.month = 0 then 11 else today.month - 1) + 1 - 1) =
        normYM today.year (today.month - 1) := by
      unfold normYM
      split_ifs <;> rw [Prod.mk.injEq] <;> constructor <;> omega
    rw [hym]
  have hdays := daysPipeline db uid user hid hvalid
    (normYM today.year (today.month - 1)).1 (normYM today.year (today.month - 1)).2
    hb.1 hb.2 _ _ _ hstart2 hend2 rfl
  rw [hdays]
  exact ⟨by simp, rfl⟩

/-- Witness for C3 at the sample database and a September 2026 clock. -/
theorem claim_C3_witness :
    analysisMonthsSpec sampleDB 1 sampleUser ⟨2026, 8, 11⟩ "last-6-months" 6 ∧
      analysisMonthsSpec sampleDB 1 sampleUser ⟨2026, 8, 11⟩ "last-12-months" 12 :=
  ⟨(claim_C3 sampleDB 1 sampleUser ⟨2026, 8, 11⟩ rfl (by norm_num) (by norm_num)
      (by decide)).1,
    (claim_C3 sampleDB 1 sampleUser ⟨2026, 8, 11⟩ rfl (by norm_num) (by norm_num)
      (by decide)).2.1⟩

/-- Witness for C4 at the sample database and a September 2026 clock. -/
theorem claim_C4_witness :
    analysisDaysSpec sampleDB 1 sampleUser ⟨2026, 8, 11⟩ :=
  claim_C4 sampleDB 1 sampleUser ⟨2026, 8, 11⟩ rfl (by norm_num) (by norm_num) (by decide)

end BudgetApp
